import Mathlib

/-!
Verification of the cotton single-file-script runner.

This file gives a shallow embedding of the script-runner core of the
cotton repository (src/main.rs together with the hashing helpers of
src/hashing.rs) and proves the specified properties about it.

Conventions of the embedding:
* Rust byte strings are `List Nat` with every element below 256.
* Rust `String`/`str` text is `List Char` (wrapped in Lean `String` at
  some API boundaries); UTF-8 encoding is made explicit by `utf8Bytes`.
* Machine words are `Nat` reduced modulo `2 ^ 32` wherever the Rust
  code would overflow.
* Filesystem reads are explicit: each operation takes a record holding
  the file contents and metadata it would read, and fallible
  operations return `Except`.
-/

/-! ## SHA-256 (the hash behind `sha2::Sha256` used by src/hashing.rs)

The cotton code delegates hashing to the external `sha2` crate.  The
functions below implement the standard SHA-256 algorithm over byte
lists, which is the semantics of `Sha256::new/update/finalize`.
-/

/-- Truncation to 32 bits. -/
def mod32 (x : Nat) : Nat := x % 4294967296

/-- Rotate right within 32 bits. -/
def rotr (n x : Nat) : Nat := mod32 ((x >>> n) ||| (x <<< (32 - n)))

/-- Bitwise complement within 32 bits. -/
def not32 (x : Nat) : Nat := x ^^^ 4294967295

/-- The SHA-256 round constants. -/
def shaK : List Nat :=
  [1116352408, 1899447441, 3049323471, 3921009573, 961987163, 1508970993,
   2453635748, 2870763221, 3624381080, 310598401, 607225278, 1426881987,
   1925078388, 2162078206, 2614888103, 3248222580, 3835390401, 4022224774,
   264347078, 604807628, 770255983, 1249150122, 1555081692, 1996064986,
   2554220882, 2821834349, 2952996808, 3210313671, 3336571891, 3584528711,
   113926993, 338241895, 666307205, 773529912, 1294757372, 1396182291,
   1695183700, 1986661051, 2177026350, 2456956037, 2730485921, 2820302411,
   3259730800, 3345764771, 3516065817, 3600352804, 4094571909, 275423344,
   430227734, 506948616, 659060556, 883997877, 958139571, 1322822218,
   1537002063, 1747873779, 1955562222, 2024104815, 2227730452, 2361852424,
   2428436474, 2756734187, 3204031479, 3329325298]

/-- The eight working variables of the SHA-256 compression function. -/
structure Hash8 where
  a : Nat
  b : Nat
  c : Nat
  d : Nat
  e : Nat
  f : Nat
  g : Nat
  h : Nat
deriving DecidableEq

/-- The SHA-256 initialization vector. -/
def shaInit : Hash8 :=
  ⟨1779033703, 3144134277, 1013904242, 2773480762, 1359893119, 2600822924, 528734635, 1541459225⟩

/-- One SHA-256 round, consuming one round constant and one schedule word. -/
def shaRound (st : Hash8) (kw : Nat × Nat) : Hash8 :=
  let s1 := (rotr 6 st.e) ^^^ (rotr 11 st.e) ^^^ (rotr 25 st.e)
  let ch := (st.e &&& st.f) ^^^ ((not32 st.e) &&& st.g)
  let t1 := mod32 (st.h + s1 + ch + kw.1 + kw.2)
  let s0 := (rotr 2 st.a) ^^^ (rotr 13 st.a) ^^^ (rotr 22 st.a)
  let mj := (st.a &&& st.b) ^^^ (st.a &&& st.c) ^^^ (st.b &&& st.c)
  let t2 := mod32 (s0 + mj)
  ⟨mod32 (t1 + t2), st.a, st.b, st.c, mod32 (st.d + t1), st.e, st.f, st.g⟩

/-- Split a list into consecutive chunks of size `n` (fuel-driven). -/
def chunksGo (n : Nat) : Nat → List Nat → List (List Nat)
  | 0, _ => []
  | _, [] => []
  | fuel + 1, l => l.take n :: chunksGo n fuel (l.drop n)

/-- Split a byte list into consecutive chunks of size `n`. -/
def chunksOf (n : Nat) (l : List Nat) : List (List Nat) := chunksGo n l.length l

/-- Big-endian word from a list of bytes. -/
def beWord (l : List Nat) : Nat := l.foldl (fun a b => a * 256 + b) 0

/-- One extension step of the SHA-256 message schedule. -/
def nextW (w : List Nat) : Nat :=
  let len := w.length
  let w15 := w.getD (len - 15) 0
  let w2 := w.getD (len - 2) 0
  let s0 := (rotr 7 w15) ^^^ (rotr 18 w15) ^^^ (w15 >>> 3)
  let s1 := (rotr 17 w2) ^^^ (rotr 19 w2) ^^^ (w2 >>> 10)
  mod32 (w.getD (len - 16) 0 + s0 + w.getD (len - 7) 0 + s1)

/-- Extend the 16 message words to the 64-entry schedule. -/
def extendW : List Nat → Nat → List Nat
  | w, 0 => w
  | w, n + 1 => extendW (w ++ [nextW w]) n

/-- Process one 64-byte block. -/
def shaBlock (st : Hash8) (block : List Nat) : Hash8 :=
  let ws := extendW ((chunksOf 4 block).map beWord) 48
  let r := (shaK.zip ws).foldl shaRound st
  ⟨mod32 (st.a + r.a), mod32 (st.b + r.b), mod32 (st.c + r.c), mod32 (st.d + r.d),
   mod32 (st.e + r.e), mod32 (st.f + r.f), mod32 (st.g + r.g), mod32 (st.h + r.h)⟩

/-- Big-endian bytes of a 32-bit word. -/
def wordBytes (w : Nat) : List Nat :=
  [(w >>> 24) % 256, (w >>> 16) % 256, (w >>> 8) % 256, w % 256]

/-- The 32 output bytes of a final SHA-256 state. -/
def hashBytes (st : Hash8) : List Nat :=
  wordBytes st.a ++ wordBytes st.b ++ wordBytes st.c ++ wordBytes st.d ++
  wordBytes st.e ++ wordBytes st.f ++ wordBytes st.g ++ wordBytes st.h

/-- Big-endian 8-byte encoding of the bit length. -/
def lenBytes (bits : Nat) : List Nat :=
  [(bits >>> 56) % 256, (bits >>> 48) % 256, (bits >>> 40) % 256, (bits >>> 32) % 256,
   (bits >>> 24) % 256, (bits >>> 16) % 256, (bits >>> 8) % 256, bits % 256]

/-- SHA-256 message padding. -/
def shaPad (msg : List Nat) : List Nat :=
  msg ++ 0x80 :: List.replicate ((120 - (msg.length + 1) % 64) % 64) 0 ++ lenBytes (msg.length * 8)

/-- SHA-256 of a byte list. -/
def sha256 (msg : List Nat) : List Nat :=
  hashBytes ((chunksOf 64 (shaPad msg)).foldl shaBlock shaInit)

/-- Lowercase hex digit. -/
def hexDigitChar (n : Nat) : Char :=
  "0123456789abcdef".data.getD n '0'

/-- Lowercase hex encoding of a byte list, as produced by `hex::encode`. -/
def hexEncode (bytes : List Nat) : List Char :=
  (bytes.map (fun b => [hexDigitChar (b / 16 % 16), hexDigitChar (b % 16)])).flatten

/-! ## The incremental hasher (`Sha256::new/update/finalize`)

The `sha2` crate's hasher object is modelled by the bytes it has
absorbed so far; `finalize` hashes the accumulated stream.
-/

/-- The state of an incremental `Sha256` hasher: the absorbed bytes. -/
structure Sha256 where
  absorbed : List Nat
deriving DecidableEq

/-- A fresh hasher (`Sha256::new()`). -/
def Sha256.init : Sha256 := ⟨[]⟩

/-- Absorb more input (`Sha256::update`). -/
def Sha256.update (st : Sha256) (data : List Nat) : Sha256 := ⟨st.absorbed ++ data⟩

/-- Produce the digest bytes (`Sha256::finalize`). -/
def Sha256.finalize (st : Sha256) : List Nat := sha256 st.absorbed

/-! ## src/hashing.rs -/

/-- Model of `hex_digest` (src/hashing.rs lines 146-151): fold `update` over the
parts as `Digest::from_buffers` does, then hex-encode the digest. -/
def hex_digest (parts : List (List Nat)) : List Char :=
  hexEncode (Sha256.finalize (parts.foldl Sha256.update Sha256.init))

/-- The chunked digest computed by `Digest::from_reader`
(src/hashing.rs lines 62-73): `std::io::copy` feeds the hasher in
chunks of at most 8192 bytes (its default buffer size). -/
def hex_digest_file_bytes (content : List Nat) : List Char :=
  hexEncode (Sha256.finalize ((chunksOf 8192 content).foldl Sha256.update Sha256.init))

/-- A file system fragment: contents of files by path. -/
abbrev FileSys : Type := String → Option (List Nat)

/-- Model of `hex_digest_file` (src/hashing.rs lines 153-157): open and stream
the file, failing with an I/O error when it cannot be read. -/
def hex_digest_file (fs : FileSys) (path : String) : Except Unit (List Char) :=
  match fs path with
  | none => .error ()
  | some content => .ok (hex_digest_file_bytes content)

/-! ## UTF-8 encoding of text (Rust `str` bytes) -/

/-- UTF-8 encoding of one Unicode scalar value. -/
def utf8Char (c : Char) : List Nat :=
  let n := c.toNat
  if n < 0x80 then [n]
  else if n < 0x800 then
    [0xc0 ||| (n >>> 6), 0x80 ||| (n &&& 0x3f)]
  else if n < 0x10000 then
    [0xe0 ||| (n >>> 12), 0x80 ||| ((n >>> 6) &&& 0x3f), 0x80 ||| (n &&& 0x3f)]
  else
    [0xf0 ||| (n >>> 18), 0x80 ||| ((n >>> 12) &&& 0x3f), 0x80 ||| ((n >>> 6) &&& 0x3f),
     0x80 ||| (n &&& 0x3f)]

/-- UTF-8 bytes of a text. -/
def utf8Bytes (s : List Char) : List Nat := (s.map utf8Char).flatten

/-! ## src/main.rs: build states and their predicates -/

/-- Output mode of a cargo invocation (src/main.rs lines 55-59). -/
inductive CargoMode
  | Silent
  | Verbose
deriving DecidableEq

/-- The build-state classification (src/main.rs lines 61-67).  The
spec names `NoBinary` "NoArtifact" and `BinaryOutdated`
"BuildOutdated". -/
inductive CargoState
  | ScriptDiffers
  | NoBinary
  | BinaryOutdated
  | UpToDate
deriving DecidableEq

/-- The predicate `CargoState::needs_update` (src/main.rs lines 70-75); the spec
calls this predicate `needs_sync`. -/
def CargoState.needs_update : CargoState → Bool
  | .ScriptDiffers => true
  | _ => false

/-- The predicate `CargoState::needs_build` (src/main.rs lines 77-83). -/
def CargoState.needs_build : CargoState → Bool
  | .ScriptDiffers => true
  | .NoBinary | .BinaryOutdated => true
  | _ => false

/-- The error currency of the embedded fallible operations (the
`problem` crate's error type, reduced to the cases the core
distinguishes). -/
inductive Problem
  | io
  | manifestNotFound
deriving DecidableEq

/-- Everything `Cargo::state` reads from the filesystem: the script
text, the raw bytes of the mirrored `src/main.rs`, whether the staged
binary is a file, and the two modification times (as abstract
instants). `none` contents mean the read fails. -/
structure ProjectFs where
  script_content : Option (List Char)
  main_content : Option (List Nat)
  binary_is_file : Bool
  binary_mtime : Nat
  script_mtime : Nat

/-- Model of `Cargo::state` (src/main.rs lines 170-188): compare the digest of
the script content with the streamed digest of the mirrored main
source, then check binary existence, then modification times. -/
def Cargo.state (fs : ProjectFs) : Except Problem CargoState :=
  match fs.script_content with
  | none => .error .io
  | some sc =>
    match fs.main_content with
    | none => .error .io
    | some mc =>
      if hex_digest [utf8Bytes sc] ≠ hex_digest_file_bytes mc then .ok .ScriptDiffers
      else if !fs.binary_is_file then .ok .NoBinary
      else if fs.binary_mtime < fs.script_mtime then .ok .BinaryOutdated
      else .ok .UpToDate

/-! ## src/main.rs: manifest extraction -/

/-- Left trim: drop leading whitespace (Rust `str::trim`, left part;
whitespace is modelled by `Char.isWhitespace`). -/
def trimLeft (l : List Char) : List Char := l.dropWhile Char.isWhitespace

/-- Right trim: drop trailing whitespace. -/
def trimRight (l : List Char) : List Char := (l.reverse.dropWhile Char.isWhitespace).reverse

/-- Rust `str::trim`: drop whitespace from both ends. -/
def str_trim (l : List Char) : List Char := trimLeft (trimRight l)

/-- Split a text at newline characters (keeping a trailing empty
piece when the text ends with a newline). -/
def split_nl (s : List Char) : List (List Char) :=
  s.foldr (fun c acc => if c = '\n' then [] :: acc else (c :: acc.headD []) :: acc.tail) [[]]

/-- Rust `str::lines`: split at newlines, drop the piece after a
final newline, and strip one trailing carriage return per line. -/
def rust_lines (s : List Char) : List (List Char) :=
  let ps := split_nl s
  let ps := if ps.getLast? = some [] then ps.dropLast else ps
  ps.map (fun l => if l.getLast? = some '\r' then l.dropLast else l)

/-- The opening marker line of the embedded manifest block. -/
def manifestMarker : List Char := "/* Cargo.toml".data

/-- The closing marker line of the embedded manifest block. -/
def manifestEnd : List Char := "*/".data

/-- The line pipeline of `Cargo::manifest_content` (src/main.rs lines
154-168): trim every line, skip up to the opening marker, skip the
marker itself, take lines up to the closing marker. -/
def manifest_lines (ls : List (List Char)) : List (List Char) :=
  (((ls.map str_trim).dropWhile (fun l => !(l == manifestMarker))).drop 1).takeWhile
    (fun l => !(l == manifestEnd))

/-- The collected manifest text: the collected lines joined with
newline separators (itertools `join("\n")`). -/
def manifest_from_lines (ls : List (List Char)) : List Char :=
  List.intercalate ['\n'] (manifest_lines ls)

/-- Model of `Cargo::manifest_content` (src/main.rs lines 154-168). -/
def Cargo.manifest_content (script : List Char) : Except Problem (List Char) :=
  let manifest := manifest_from_lines (rust_lines script)
  if manifest.isEmpty then .error .manifestNotFound else .ok manifest

/-- Spec-side restatement of the extraction ("the trimmed lines
strictly between the first line equal, after trimming, to the opening
marker and the next line equal to the closing marker"), written with
explicit index search instead of the code's skip/take pipeline; used
to compare the code against the spec's words. -/
def spec_manifest_lines (ls : List (List Char)) : List (List Char) :=
  match (ls.map str_trim).findIdx? (fun l => l == manifestMarker) with
  | none => []
  | some i =>
    match ((ls.map str_trim).drop (i + 1)).findIdx? (fun l => l == manifestEnd) with
    | none => (ls.map str_trim).drop (i + 1)
    | some j => ((ls.map str_trim).drop (i + 1)).take j

/-! ## src/main.rs: cache path resolution -/

/-- The leaf directory name of a script's backing project
(src/main.rs lines 102-114): `"project-" + first 16 hex characters of
the digest of the parent directory + "-" + file stem`. -/
def projectDirName (parent : List Char) (stem : List Char) : List Char :=
  "project-".data ++ (hex_digest [utf8Bytes parent]).take 16 ++ "-".data ++ stem

/-- Big-endian base-256 value of a byte list (used to count digest
values). -/
def encodeBytes : List Nat → Nat
  | [] => 0
  | b :: bs => b * 256 ^ bs.length + encodeBytes bs

/-! ## src/main.rs: the implicit-exec invocation path -/

/-- The externally observable actions of the script-runner core. -/
inductive CargoAction
  | update
  | build (mode : CargoMode)
  | execute (args : List String)
deriving DecidableEq

/-- The filesystem actions performed by `Cargo::ensure_built`
(src/main.rs lines 235-245): evaluate the state once, update when
`needs_update`, build when `needs_build`. -/
def ensure_built_actions (mode : CargoMode) (fs : ProjectFs) : Except Problem (List CargoAction) :=
  match Cargo.state fs with
  | .error e => .error e
  | .ok st =>
    .ok ((if st.needs_update then [CargoAction.update] else []) ++
      (if st.needs_build then [CargoAction.build mode] else []))

/-- Model of `Cargo::binary_built` (src/main.rs lines 215-217). -/
def binary_built (fs : ProjectFs) : Bool := fs.binary_is_file

/-- Whether a CLI token ends in the script-file extension `.rs`
(src/main.rs line 277). -/
def ends_with_rs (s : String) : Bool := List.isSuffixOf ".rs".data s.data

/-- The implicit-exec body of `main` (src/main.rs lines 276-289):
build only when no staged binary exists, then execute it with the
remaining arguments. -/
def implicit_run (fs : ProjectFs) (args : List String) : Except Problem (List CargoAction) :=
  if !binary_built fs then
    match ensure_built_actions .Silent fs with
    | .error e => .error e
    | .ok acts => .ok (acts ++ [CargoAction.execute args])
  else .ok [CargoAction.execute args]

/-- The argument dispatch of `main` (src/main.rs line 277): when the
first program argument ends in `.rs`, run the implicit-exec path with
the remaining arguments (`args().skip(2)`); `none` means normal
subcommand parsing takes over. -/
def implicit_dispatch (argv : List String) (fs : ProjectFs) :
    Option (Except Problem (List CargoAction)) :=
  match argv.drop 1 with
  | [] => none
  | arg1 :: rest => if ends_with_rs arg1 then some (implicit_run fs rest) else none

/-- Spec-side behaviour of the implicit-exec mode as the claim states
it: unconditionally ensure-built, then execute. -/
def spec_implicit_exec (fs : ProjectFs) (args : List String) : Except Problem (List CargoAction) :=
  match ensure_built_actions .Silent fs with
  | .error e => .error e
  | .ok acts => .ok (acts ++ [CargoAction.execute args])

/-! ## src/main.rs: project initialization -/

/-- The files of a backing project directory that initialization
touches. -/
structure ProjectDir where
  src_exists : Bool
  main_source : Option (List Char)
  manifest : Option (List Char)
  manifest_template : Option (List Char)
deriving DecidableEq

/-- The placeholder main source generated by the external build
tool's scaffolding. -/
def cargoInitMain : List Char :=
  "fn main() \x7b\n    println!(\"Hello, world!\");\n\x7d\n".data

/-- Modelled from the spec: the effect of the external build tool's
project-scaffolding operation (`cargo init`, an out-of-scope
collaborator): it creates the source subdirectory, a placeholder main
source file and a generated manifest; it does not touch a manifest
template. -/
def cargo_init_effect (name : List Char) (d : ProjectDir) : ProjectDir :=
  { src_exists := true
    main_source := some cargoInitMain
    manifest := some ("[package]\nname = \"".data ++ name ++ "\"\n".data)
    manifest_template := d.manifest_template }

/-- The initialization step of `Cargo::new` (src/main.rs lines
117-120): run the scaffolding when the source subdirectory is
missing, and nothing else. -/
def Cargo.init_step (name : List Char) (d : ProjectDir) : ProjectDir :=
  if d.src_exists then d else cargo_init_effect name d

/-! ## Concrete fixtures used by counterexamples and witnesses -/

/-- A project whose mirror matches the script but whose staged binary
is older than the script file. -/
def fsStale : ProjectFs :=
  { script_content := some "x".data
    main_content := some (utf8Bytes "x".data)
    binary_is_file := true
    binary_mtime := 0
    script_mtime := 1 }

/-- A fully up-to-date project. -/
def fsUp : ProjectFs :=
  { script_content := some "x".data
    main_content := some (utf8Bytes "x".data)
    binary_is_file := true
    binary_mtime := 1
    script_mtime := 1 }

/-- A project directory before any initialization. -/
def freshProjectDir : ProjectDir :=
  { src_exists := false, main_source := none, manifest := none, manifest_template := none }

/-- A script with an embedded one-line manifest block. -/
def exampleScript : List Char :=
  "//! demo\n/* Cargo.toml\nfoo = \"1\"\n*/\nfn main() \x7b\x7d\n".data

/-! ### Basic facts about the hashing embedding -/

theorem Sha256.foldl_update_absorbed (parts : List (List Nat)) :
    ∀ st : Sha256, (parts.foldl Sha256.update st).absorbed = st.absorbed ++ parts.flatten := by
  induction parts with
  | nil => intro st; simp
  | cons p ps ih =>
    intro st
    simp [List.foldl_cons, ih, Sha256.update, List.append_assoc]

/-- The digest `hex_digest` hashes exactly the concatenation of its parts. -/
theorem hex_digest_eq_sha_flatten (parts : List (List Nat)) :
    hex_digest parts = hexEncode (sha256 parts.flatten) := by
  simp [hex_digest, Sha256.finalize, Sha256.foldl_update_absorbed, Sha256.init]

theorem chunksGo_flatten (n : Nat) (hn : 0 < n) :
    ∀ fuel l, l.length ≤ fuel → (chunksGo n fuel l).flatten = l := by
  intro fuel
  induction fuel with
  | zero =>
    intro l hl
    have : l = [] := List.eq_nil_of_length_eq_zero (Nat.le_zero.mp hl)
    simp [this, chunksGo]
  | succ m ih =>
    intro l hl
    cases l with
    | nil => simp [chunksGo]
    | cons x xs =>
      have hlen : ((x :: xs).drop n).length ≤ m := by
        have := List.length_drop n (x :: xs)
        have hx : (x :: xs).length ≤ m + 1 := hl
        have hpos : 0 < (x :: xs).length := by simp
        omega
      calc (chunksGo n (m + 1) (x :: xs)).flatten
          = (x :: xs).take n ++ (chunksGo n m ((x :: xs).drop n)).flatten := by
            simp [chunksGo]
        _ = (x :: xs).take n ++ (x :: xs).drop n := by rw [ih _ hlen]
        _ = x :: xs := List.take_append_drop n (x :: xs)

/-- Re-assembling the chunks gives back the original byte list. -/
theorem chunksOf_flatten (n : Nat) (hn : 0 < n) (l : List Nat) :
    (chunksOf n l).flatten = l :=
  chunksGo_flatten n hn l.length l (Nat.le_refl _)

/-- The chunked file digest agrees with the one-shot digest of the
whole content. -/
theorem hex_digest_file_bytes_eq (content : List Nat) :
    hex_digest_file_bytes content = hex_digest [content] := by
  rw [hex_digest_eq_sha_flatten]
  simp only [hex_digest_file_bytes, Sha256.finalize, Sha256.foldl_update_absorbed, Sha256.init,
    List.nil_append]
  rw [chunksOf_flatten 8192 (by norm_num)]
  simp

set_option maxRecDepth 100000 in
/-- The repository's own test vector (src/hashing.rs tests):
`hex_digest(["foo", "bar"])`. -/
theorem hex_digest_test_vector :
    hex_digest [utf8Bytes "foo".data, utf8Bytes "bar".data] =
      "c3ab8ff13720e8ad9047dd39466b3c8974e592c2fa383d4a3960714caef0c4f2".data := by
  decide

/-! ### Claim theorems: state evaluation and its predicates -/

/-- Claim C8: `needs_update` (the spec's `needs_sync`) holds only for
`ScriptDiffers`, and `needs_build` holds exactly for `ScriptDiffers`,
`NoBinary` (the spec's `NoArtifact`) and `BinaryOutdated` (the spec's
`BuildOutdated`), both being false for `UpToDate`. -/
theorem needs_predicates_characterization :
    ∀ s : CargoState,
      (s.needs_update = true ↔ s = CargoState.ScriptDiffers) ∧
      (s.needs_build = true ↔
        (s = CargoState.ScriptDiffers ∨ s = CargoState.NoBinary ∨
          s = CargoState.BinaryOutdated)) := by
  intro s
  cases s <;> simp [CargoState.needs_update, CargoState.needs_build]

/-- Claim C1: the state evaluator classifies a project by first
comparing the content fingerprints of script and mirrored main
source, then the existence of the staged binary, then the
modification times, short-circuiting in this order. -/
theorem state_classification :
    ∀ (fs : ProjectFs) (sc : List Char) (mc : List Nat),
      fs.script_content = some sc → fs.main_content = some mc →
      Cargo.state fs = .ok (
        if hex_digest [utf8Bytes sc] ≠ hex_digest [mc] then CargoState.ScriptDiffers
        else if fs.binary_is_file = false then CargoState.NoBinary
        else if fs.binary_mtime < fs.script_mtime then CargoState.BinaryOutdated
        else CargoState.UpToDate) := by
  intro fs sc mc hs hm
  simp only [Cargo.state, hs, hm, hex_digest_file_bytes_eq, Bool.not_eq_true',
    apply_ite Except.ok]

/-- Witness for C1 at a concrete up-to-date project. -/
theorem state_classification_witness :
    fsUp.script_content = some "x".data ∧
    fsUp.main_content = some (utf8Bytes "x".data) ∧
    Cargo.state fsUp = .ok (
      if hex_digest [utf8Bytes "x".data] ≠ hex_digest [utf8Bytes "x".data] then
        CargoState.ScriptDiffers
      else if fsUp.binary_is_file = false then CargoState.NoBinary
      else if fsUp.binary_mtime < fsUp.script_mtime then CargoState.BinaryOutdated
      else CargoState.UpToDate) :=
  ⟨rfl, rfl, state_classification fsUp _ _ rfl rfl⟩

/-! ### Claim theorems: hashing -/

/-- Claim C7: the streamed file digest equals the one-shot digest of
the file's whole content. -/
theorem file_digest_eq_whole_digest :
    ∀ (fs : FileSys) (path : String) (content : List Nat),
      fs path = some content →
      hex_digest_file fs path = .ok (hex_digest [content]) := by
  intro fs p c h
  simp [hex_digest_file, h, hex_digest_file_bytes_eq]

/-- Witness for C7 on a concrete readable file. -/
theorem file_digest_eq_whole_digest_witness :
    ((fun _ => some [102, 111, 111] : FileSys) "script.rs" = some [102, 111, 111]) ∧
    hex_digest_file (fun _ => some [102, 111, 111]) "script.rs" =
      .ok (hex_digest [[102, 111, 111]]) :=
  ⟨rfl, file_digest_eq_whole_digest _ _ _ rfl⟩

/-- Claim C9: the digest of a part list depends only on the
concatenation of the parts. -/
theorem digest_of_flatten :
    ∀ l1 l2 : List (List Nat), l1.flatten = l2.flatten → hex_digest l1 = hex_digest l2 := by
  intro l1 l2 h
  rw [hex_digest_eq_sha_flatten, hex_digest_eq_sha_flatten, h]

/-- Witness for C9: splitting "ab" into "a" and "b" does not change
the digest. -/
theorem digest_of_flatten_witness :
    ([utf8Bytes "a".data, utf8Bytes "b".data] : List (List Nat)).flatten =
      ([utf8Bytes "ab".data] : List (List Nat)).flatten ∧
    hex_digest [utf8Bytes "a".data, utf8Bytes "b".data] = hex_digest [utf8Bytes "ab".data] :=
  ⟨by decide, digest_of_flatten _ _ (by decide)⟩

/-- Counterexample to claim C6 as stated: the byte strings "x" and
"xx" are distinct, yet swapping them does not change the digest,
because both orders concatenate to the same byte stream. -/
theorem digest_order_counterexample :
    utf8Bytes "x".data ≠ utf8Bytes "xx".data ∧
    hex_digest [utf8Bytes "x".data, utf8Bytes "xx".data] =
      hex_digest [utf8Bytes "xx".data, utf8Bytes "x".data] := by
  refine ⟨by decide, ?_⟩
  have h : ([utf8Bytes "x".data, utf8Bytes "xx".data] : List (List Nat)).flatten =
      ([utf8Bytes "xx".data, utf8Bytes "x".data] : List (List Nat)).flatten := by decide
  rw [hex_digest_eq_sha_flatten, hex_digest_eq_sha_flatten, h]

set_option maxRecDepth 1000000 in
/-- Claim C6 (amended): the digest is deterministic; the spec's
example pair "a", "b" is order-sensitive; but two distinct parts
whose concatenations agree in both orders (such as "x" and "xx")
yield equal digests, since the digest depends only on the
concatenated stream. -/
theorem digest_deterministic_order_amended :
    (∀ parts : List (List Nat), hex_digest parts = hex_digest parts) ∧
    hex_digest [utf8Bytes "a".data, utf8Bytes "b".data] ≠
      hex_digest [utf8Bytes "b".data, utf8Bytes "a".data] ∧
    (∀ a b : List Nat, a ++ b = b ++ a → hex_digest [a, b] = hex_digest [b, a]) := by
  refine ⟨fun _ => rfl, by decide, ?_⟩
  intro a b h
  rw [hex_digest_eq_sha_flatten, hex_digest_eq_sha_flatten]
  simp only [List.flatten, List.append_nil]
  rw [h]

/-- Witness for the amended C6. -/
theorem digest_deterministic_order_amended_witness :
    (utf8Bytes "x".data ++ utf8Bytes "xx".data = utf8Bytes "xx".data ++ utf8Bytes "x".data) ∧
    hex_digest [utf8Bytes "x".data, utf8Bytes "xx".data] =
      hex_digest [utf8Bytes "xx".data, utf8Bytes "x".data] :=
  ⟨by decide, digest_deterministic_order_amended.2.2 _ _ (by decide)⟩

/-! ### Claim theorems: the implicit-exec path -/

/-- Counterexample to claim C2 as stated: on a project whose staged
binary exists but is older than the script, the implicit-exec path
executes the stale binary directly without the ensure-built step,
while the claimed behaviour would rebuild first. -/
theorem implicit_exec_counterexample :
    implicit_dispatch ["cotton", "foo.rs"] fsStale = some (.ok [CargoAction.execute []]) ∧
    spec_implicit_exec fsStale [] =
      .ok [CargoAction.build CargoMode.Silent, CargoAction.execute []] ∧
    implicit_dispatch ["cotton", "foo.rs"] fsStale ≠ some (spec_implicit_exec fsStale []) := by
  have hst : Cargo.state fsStale = .ok CargoState.BinaryOutdated := by
    simp [Cargo.state, fsStale, hex_digest_file_bytes_eq]
  have hrs : ends_with_rs "foo.rs" = true := by decide
  have h1 : implicit_dispatch ["cotton", "foo.rs"] fsStale =
      some (.ok [CargoAction.execute []]) := by
    simp [implicit_dispatch, hrs, implicit_run, binary_built, fsStale]
  have h2 : spec_implicit_exec fsStale [] =
      .ok [CargoAction.build CargoMode.Silent, CargoAction.execute []] := by
    simp [spec_implicit_exec, ensure_built_actions, hst, CargoState.needs_update,
      CargoState.needs_build]
  refine ⟨h1, h2, ?_⟩
  rw [h1, h2]
  intro h
  simp at h

/-- Claim C2 (amended): when the first program argument ends in
".rs", the tool runs the implicit-exec path; it performs the
ensure-built step only when the staged binary is absent, and then
replace-process-executes the binary with the remaining arguments. -/
theorem implicit_exec_amended :
    ∀ (argv : List String) (a : String) (rest : List String) (fs : ProjectFs)
      (st : CargoState),
      argv.drop 1 = a :: rest → ends_with_rs a = true → Cargo.state fs = .ok st →
      implicit_dispatch argv fs = some (.ok (
        (if fs.binary_is_file = false then
          (if st.needs_update then [CargoAction.update] else []) ++
          (if st.needs_build then [CargoAction.build CargoMode.Silent] else [])
         else []) ++ [CargoAction.execute rest])) := by
  intro argv a rest fs st hdrop hrs hstate
  simp only [implicit_dispatch, hdrop, hrs, if_true]
  simp only [implicit_run, binary_built, ensure_built_actions, hstate]
  cases hb : fs.binary_is_file <;> simp [hb]

/-- Witness for the amended C2 at a concrete up-to-date project. -/
theorem implicit_exec_amended_witness :
    (["cotton", "a.rs"].drop 1 = "a.rs" :: ([] : List String)) ∧
    ends_with_rs "a.rs" = true ∧
    Cargo.state fsUp = .ok CargoState.UpToDate ∧
    implicit_dispatch ["cotton", "a.rs"] fsUp = some (.ok (
      (if fsUp.binary_is_file = false then
        (if CargoState.UpToDate.needs_update then [CargoAction.update] else []) ++
        (if CargoState.UpToDate.needs_build then [CargoAction.build CargoMode.Silent] else [])
       else []) ++ [CargoAction.execute []])) := by
  have hst : Cargo.state fsUp = .ok CargoState.UpToDate := by
    simp [Cargo.state, fsUp, hex_digest_file_bytes_eq]
  exact ⟨rfl, by decide, hst, implicit_exec_amended _ _ _ _ _ rfl (by decide) hst⟩

/-! ### Claim theorems: project initialization -/

/-- Counterexample to claim C3 as stated: after initializing a fresh
project, the scaffolding's placeholder main source is still present
and no manifest template has been created. -/
theorem init_step_counterexample :
    (Cargo.init_step "proj".data freshProjectDir).manifest_template = none ∧
    (Cargo.init_step "proj".data freshProjectDir).main_source = some cargoInitMain := by
  constructor <;> rfl

/-- Claim C3 (amended): initializing a project whose source
subdirectory does not exist only runs the build tool's scaffolding:
the placeholder main source remains in place, the manifest-template
file is not created, and no existence assertions are performed (the
step is total and never terminates the process). -/
theorem init_step_amended :
    ∀ (name : List Char) (d : ProjectDir), d.src_exists = false →
      Cargo.init_step name d = cargo_init_effect name d ∧
      (Cargo.init_step name d).main_source = some cargoInitMain ∧
      (Cargo.init_step name d).manifest_template = d.manifest_template := by
  intro name d h
  simp [Cargo.init_step, h, cargo_init_effect]

/-- Witness for the amended C3 on a fresh project directory. -/
theorem init_step_amended_witness :
    freshProjectDir.src_exists = false ∧
    Cargo.init_step "proj".data freshProjectDir = cargo_init_effect "proj".data freshProjectDir ∧
    (Cargo.init_step "proj".data freshProjectDir).main_source = some cargoInitMain ∧
    (Cargo.init_step "proj".data freshProjectDir).manifest_template =
      freshProjectDir.manifest_template := by
  have h := init_step_amended "proj".data freshProjectDir rfl
  exact ⟨rfl, h.1, h.2.1, h.2.2⟩

/-! ### List lemmas for the manifest extraction pipeline -/

theorem dropWhile_of_forall_false {α : Type} (p : α → Bool) (l : List α)
    (h : ∀ x ∈ l, p x = false) : l.dropWhile (fun x => !p x) = [] := by
  rw [List.dropWhile_eq_nil_iff]
  intro x hx
  simp [h x hx]

theorem takeWhile_of_forall_false {α : Type} (p : α → Bool) (l : List α)
    (h : ∀ x ∈ l, p x = false) : l.takeWhile (fun x => !p x) = l := by
  rw [List.takeWhile_eq_self_iff]
  intro x hx
  simp [h x hx]

theorem dropWhile_findIdx?_some {α : Type} (p : α → Bool) :
    ∀ (l : List α) (j : Nat), l.findIdx? p = some j →
      l.dropWhile (fun x => !p x) = l.drop j := by
  intro l
  induction l with
  | nil => intro j h; simp [List.findIdx?] at h
  | cons x xs ih =>
    intro j h
    rw [List.findIdx?_cons] at h
    by_cases hp : p x = true
    · simp [hp] at h
      subst h
      simp [List.dropWhile_cons, hp]
    · simp [hp] at h
      obtain ⟨a, ha, rfl⟩ := h
      simp [List.dropWhile_cons, hp, ih a ha]

theorem takeWhile_findIdx?_some {α : Type} (p : α → Bool) :
    ∀ (l : List α) (j : Nat), l.findIdx? p = some j →
      l.takeWhile (fun x => !p x) = l.take j := by
  intro l
  induction l with
  | nil => intro j h; simp [List.findIdx?] at h
  | cons x xs ih =>
    intro j h
    rw [List.findIdx?_cons] at h
    by_cases hp : p x = true
    · simp [hp] at h
      subst h
      simp [List.takeWhile_cons, hp]
    · simp [hp] at h
      obtain ⟨a, ha, rfl⟩ := h
      simp [List.takeWhile_cons, hp, ih a ha]

/-- The code's skip/take pipeline equals the spec-side index-search
description of the manifest block. -/
theorem manifest_lines_eq_spec (ls : List (List Char)) :
    manifest_lines ls = spec_manifest_lines ls := by
  unfold manifest_lines spec_manifest_lines
  cases h1 : (ls.map str_trim).findIdx? (fun l => l == manifestMarker) with
  | none =>
    have h1' := List.findIdx?_eq_none_iff.mp h1
    rw [dropWhile_of_forall_false _ _ h1']
    rfl
  | some i =>
    dsimp only
    rw [dropWhile_findIdx?_some _ _ _ h1]
    rw [List.drop_drop]
    cases h2 : ((ls.map str_trim).drop (i + 1)).findIdx? (fun l => l == manifestEnd) with
    | none =>
      have h2' := List.findIdx?_eq_none_iff.mp h2
      rw [takeWhile_of_forall_false _ _ h2']
    | some j =>
      rw [takeWhile_findIdx?_some _ _ _ h2]

/-- Claim C4: manifest extraction returns the trimmed lines strictly
between the first marker line and the next closing line, joined by
newlines, failing with the "manifest not found" error exactly when
the collected text is empty; and on the concrete example block it
returns exactly the single manifest line. -/
theorem manifest_extraction_characterization :
    (∀ s : List Char, Cargo.manifest_content s =
      (if (List.intercalate ['\n'] (spec_manifest_lines (rust_lines s))).isEmpty then
        Except.error Problem.manifestNotFound
       else .ok (List.intercalate ['\n'] (spec_manifest_lines (rust_lines s))))) ∧
    Cargo.manifest_content exampleScript = .ok "foo = \"1\"".data := by
  constructor
  · intro s
    simp only [Cargo.manifest_content, manifest_from_lines, manifest_lines_eq_spec]
  · rfl

/-! ### Lemmas about whitespace trimming -/

theorem dropWhile_append_of_forall {α : Type} (p : α → Bool) :
    ∀ (q l : List α), (∀ c ∈ q, p c = true) → (q ++ l).dropWhile p = l.dropWhile p := by
  intro q
  induction q with
  | nil => intro l _; rfl
  | cons c t ih =>
    intro l h
    simp only [List.cons_append, List.dropWhile_cons, h c (by simp), if_true]
    exact ih l (fun x hx => h x (by simp [hx]))

theorem trimLeft_append_ws (q l : List Char) (h : ∀ c ∈ q, c.isWhitespace) :
    trimLeft (q ++ l) = trimLeft l :=
  dropWhile_append_of_forall _ q l h

theorem trimRight_append_ws (l q : List Char) (h : ∀ c ∈ q, c.isWhitespace) :
    trimRight (l ++ q) = trimRight l := by
  unfold trimRight
  rw [List.reverse_append, dropWhile_append_of_forall _ q.reverse l.reverse
    (fun c hc => h c (List.mem_reverse.mp hc))]

theorem str_trim_left_pad (q l : List Char) (h : ∀ c ∈ q, c.isWhitespace) :
    str_trim (q ++ l) = str_trim l := by
  unfold str_trim trimRight
  rw [List.reverse_append, List.dropWhile_append]
  by_cases he : (l.reverse.dropWhile Char.isWhitespace).isEmpty = true
  · rw [if_pos he]
    have hq : q.reverse.dropWhile Char.isWhitespace = [] := by
      rw [List.dropWhile_eq_nil_iff]
      intro c hc
      exact h c (List.mem_reverse.mp hc)
    rw [hq]
    rw [List.isEmpty_iff] at he
    rw [he]
  · rw [if_neg he]
    rw [List.reverse_append, List.reverse_reverse]
    exact trimLeft_append_ws q _ h

theorem str_trim_pad (pre mid post : List Char)
    (hpre : ∀ c ∈ pre, c.isWhitespace) (hpost : ∀ c ∈ post, c.isWhitespace) :
    str_trim (pre ++ mid ++ post) = str_trim mid := by
  rw [List.append_assoc, str_trim_left_pad pre (mid ++ post) hpre]
  show trimLeft (trimRight (mid ++ post)) = str_trim mid
  rw [trimRight_append_ws mid post hpost]
  rfl

theorem dropWhile_head_false {α : Type} (p : α → Bool) :
    ∀ (l : List α) (a : α) (t : List α), l.dropWhile p = a :: t → p a = false := by
  intro l
  induction l with
  | nil => intro a t h; simp at h
  | cons x xs ih =>
    intro a t h
    rw [List.dropWhile_cons] at h
    by_cases hp : p x = true
    · rw [if_pos hp] at h
      exact ih a t h
    · rw [if_neg hp] at h
      cases h
      simpa using hp

/-- Trimming is idempotent. -/
theorem str_trim_idem (l : List Char) : str_trim (str_trim l) = str_trim l := by
  cases hw : str_trim l with
  | nil => rfl
  | cons a t =>
    have hwl : (trimRight l).dropWhile Char.isWhitespace = a :: t := hw
    have ha : a.isWhitespace = false := dropWhile_head_false _ _ _ _ hwl
    have hsuffix : (a :: t) <:+ trimRight l := hwl ▸ List.dropWhile_suffix _
    obtain ⟨s, hs⟩ := hsuffix
    have hlast : (a :: t).getLast? = (trimRight l).getLast? := by
      rw [← hs, List.getLast?_append]
      cases hg : (a :: t).getLast? with
      | none => simp [List.getLast?] at hg
      | some b => rfl
    have hlast2 : (trimRight l).getLast? = (l.reverse.dropWhile Char.isWhitespace).head? := by
      unfold trimRight
      rw [List.getLast?_reverse]
    have hne : trimRight l ≠ [] := by
      intro hnil
      rw [hnil] at hs
      simp at hs
    obtain ⟨b, hb⟩ : ∃ b, (a :: t).getLast? = some b := by
      cases hg : (a :: t).getLast? with
      | none => simp [List.getLast?_eq_none_iff] at hg
      | some b => exact ⟨b, rfl⟩
    have hbws : b.isWhitespace = false := by
      have : (l.reverse.dropWhile Char.isWhitespace).head? = some b := by
        rw [← hlast2, ← hlast, hb]
      cases hd : l.reverse.dropWhile Char.isWhitespace with
      | nil => rw [hd] at this; simp at this
      | cons c cs =>
        rw [hd] at this
        simp at this
        subst this
        exact dropWhile_head_false _ _ _ _ hd
    show trimLeft (trimRight (a :: t)) = a :: t
    have htr : trimRight (a :: t) = a :: t := by
      unfold trimRight
      cases hr : (a :: t).reverse with
      | nil => simp at hr
      | cons c cs =>
        have : c = b := by
          have h1 : (a :: t).reverse.head? = some c := by rw [hr]; rfl
          rw [List.head?_reverse, hb] at h1
          exact (Option.some.injEq _ _ ▸ h1).symm
        subst this
        rw [List.dropWhile_cons, hbws]
        simp only [Bool.false_eq_true, if_false]
        rw [← hr, List.reverse_reverse]
    rw [htr]
    unfold trimLeft
    rw [List.dropWhile_cons, ha]
    simp

/-- Claim C10: manifest extraction trims every line before matching
and collecting: the result depends only on the trimmed lines, adding
whitespace-only padding around a line does not change its trimmed
form, and every collected manifest line is its own trim (no leading
or trailing whitespace survives). -/
theorem manifest_trimming :
    (∀ ls1 ls2 : List (List Char), ls1.map str_trim = ls2.map str_trim →
      manifest_from_lines ls1 = manifest_from_lines ls2) ∧
    (∀ pre mid post : List Char, (∀ c ∈ pre, c.isWhitespace) → (∀ c ∈ post, c.isWhitespace) →
      str_trim (pre ++ mid ++ post) = str_trim mid) ∧
    (∀ (ls : List (List Char)) (m : List Char), m ∈ manifest_lines ls → str_trim m = m) := by
  refine ⟨?_, str_trim_pad, ?_⟩
  · intro ls1 ls2 h
    unfold manifest_from_lines manifest_lines
    rw [h]
  · intro ls m hm
    have h1 : m ∈ ((ls.map str_trim).dropWhile (fun l => !(l == manifestMarker))).drop 1 :=
      List.Sublist.mem hm (List.takeWhile_sublist _)
    have h2 : m ∈ (ls.map str_trim).dropWhile (fun l => !(l == manifestMarker)) :=
      List.Sublist.mem h1 (List.drop_sublist _ _)
    have h3 : m ∈ ls.map str_trim := List.Sublist.mem h2 (List.dropWhile_sublist _)
    obtain ⟨x, _, rfl⟩ := List.mem_map.mp h3
    exact str_trim_idem x

/-- Witness for C10 on concrete padded lines. -/
theorem manifest_trimming_witness :
    (["  a".data].map str_trim = ["a  ".data].map str_trim) ∧
    manifest_from_lines ["  a".data] = manifest_from_lines ["a  ".data] ∧
    (∀ c ∈ " ".data, c.isWhitespace) ∧
    str_trim (" ".data ++ "x".data ++ " ".data) = str_trim "x".data := by
  refine ⟨by decide, manifest_trimming.1 _ _ (by decide), by decide,
    manifest_trimming.2.1 _ _ _ (by decide) (by decide)⟩

/-! ### Counting digests: the 16-character prefix cannot be injective -/

theorem hexEncode_length (bs : List Nat) : (hexEncode bs).length = 2 * bs.length := by
  induction bs with
  | nil => rfl
  | cons b t ih =>
    simp only [hexEncode, List.map_cons, List.flatten_cons, List.length_append,
      List.length_cons, List.length_nil] at ih ⊢
    omega

theorem sha256_length (msg : List Nat) : (sha256 msg).length = 32 := by
  simp [sha256, hashBytes, wordBytes]

theorem wordBytes_lt (w b : Nat) (hb : b ∈ wordBytes w) : b < 256 := by
  simp only [wordBytes, List.mem_cons, List.not_mem_nil, or_false] at hb
  rcases hb with rfl | rfl | rfl | rfl <;> exact Nat.mod_lt _ (by norm_num)

theorem sha256_bytes_lt (msg : List Nat) (b : Nat) (hb : b ∈ sha256 msg) : b < 256 := by
  simp only [sha256, hashBytes, List.mem_append] at hb
  rcases hb with ((((((h | h) | h) | h) | h) | h) | h) | h <;> exact wordBytes_lt _ _ h

theorem encodeBytes_lt :
    ∀ l : List Nat, (∀ x ∈ l, x < 256) → encodeBytes l < 256 ^ l.length := by
  intro l
  induction l with
  | nil => intro _; simp [encodeBytes]
  | cons b t ih =>
    intro h
    have hb : b < 256 := h b (by simp)
    have ht := ih (fun x hx => h x (by simp [hx]))
    simp only [encodeBytes, List.length_cons]
    calc b * 256 ^ t.length + encodeBytes t
        < b * 256 ^ t.length + 256 ^ t.length := Nat.add_lt_add_left ht _
      _ = (b + 1) * 256 ^ t.length := by ring
      _ ≤ 256 * 256 ^ t.length := Nat.mul_le_mul_right _ hb
      _ = 256 ^ (t.length + 1) := by rw [pow_succ]; ring

theorem encode_blocks_lt (b c et es x : Nat) (het : et < x) (hbc : b < c) :
    b * x + et < c * x + es := by
  calc b * x + et < b * x + x := Nat.add_lt_add_left het _
    _ = (b + 1) * x := by ring
    _ ≤ c * x := Nat.mul_le_mul_right _ hbc
    _ ≤ c * x + es := Nat.le_add_right _ _

theorem encodeBytes_inj :
    ∀ l1 l2 : List Nat, l1.length = l2.length → (∀ x ∈ l1, x < 256) →
      (∀ x ∈ l2, x < 256) → encodeBytes l1 = encodeBytes l2 → l1 = l2 := by
  intro l1
  induction l1 with
  | nil =>
    intro l2 hlen _ _ _
    cases l2 with
    | nil => rfl
    | cons c s => simp at hlen
  | cons b t ih =>
    intro l2 hlen h1 h2 henc
    cases l2 with
    | nil => simp at hlen
    | cons c s =>
      have hts : t.length = s.length := by simpa using hlen
      simp only [encodeBytes] at henc
      rw [hts] at henc
      have het : encodeBytes t < 256 ^ s.length := by
        rw [← hts]
        exact encodeBytes_lt t (fun x hx => h1 x (by simp [hx]))
      have hes : encodeBytes s < 256 ^ s.length :=
        encodeBytes_lt s (fun x hx => h2 x (by simp [hx]))
      have hbc : b = c := by
        rcases Nat.lt_trichotomy b c with hlt | heq | hgt
        · exact absurd henc (Nat.ne_of_lt (encode_blocks_lt _ _ _ _ _ het hlt))
        · exact heq
        · exact absurd henc.symm (Nat.ne_of_lt (encode_blocks_lt _ _ _ _ _ hes hgt))
      subst hbc
      have hee : encodeBytes t = encodeBytes s := by omega
      rw [ih s hts (fun x hx => h1 x (by simp [hx])) (fun x hx => h2 x (by simp [hx])) hee]

/-- Counterexample to claim C5 as stated: because the project name
keeps only the first 16 hex characters of the digest, the map from
parent directories to project names has a finite range while there
are infinitely many parent directories, so two distinct parents with
the same stem must share a project path. -/
theorem project_dir_collision_counterexample :
    ¬ ∀ (p q stem : List Char), p ≠ q → projectDirName p stem ≠ projectDirName q stem := by
  intro hclaim
  have hbound : ∀ n : Nat,
      encodeBytes (sha256 (utf8Bytes (List.replicate n 'a'))) < 256 ^ 32 := by
    intro n
    have h := encodeBytes_lt (sha256 (utf8Bytes (List.replicate n 'a')))
      (fun x hx => sha256_bytes_lt _ _ hx)
    rwa [sha256_length] at h
  obtain ⟨n, m, hnm, heq⟩ := Finite.exists_ne_map_eq_of_infinite
    (fun n : Nat =>
      (⟨encodeBytes (sha256 (utf8Bytes (List.replicate n 'a'))), hbound n⟩ : Fin (256 ^ 32)))
  have hval : encodeBytes (sha256 (utf8Bytes (List.replicate n 'a'))) =
      encodeBytes (sha256 (utf8Bytes (List.replicate m 'a'))) := by
    simpa using congrArg Fin.val heq
  have hsha : sha256 (utf8Bytes (List.replicate n 'a')) =
      sha256 (utf8Bytes (List.replicate m 'a')) :=
    encodeBytes_inj _ _ (by rw [sha256_length, sha256_length])
      (fun x hx => sha256_bytes_lt _ _ hx) (fun x hx => sha256_bytes_lt _ _ hx) hval
  have hproj : projectDirName (List.replicate n 'a') [] =
      projectDirName (List.replicate m 'a') [] := by
    unfold projectDirName
    rw [hex_digest_eq_sha_flatten, hex_digest_eq_sha_flatten]
    simp only [List.flatten_cons, List.flatten_nil, List.append_nil]
    rw [hsha]
  have hne : List.replicate n 'a' ≠ List.replicate m 'a' := by
    intro h
    exact hnm (by simpa using congrArg List.length h)
  exact hclaim _ _ [] hne hproj

/-- Claim C5 (amended): the project directory name is a pure function
of parent directory and stem with the stated
"project-(prefix)-(stem)" format and a 16-character digest prefix;
two resolutions with the same stem coincide exactly when the
16-character digest prefixes of the parents coincide (so distinct
parents give distinct paths unless their digest prefixes collide,
which is possible in principle). -/
theorem project_dir_name_amended :
    (∀ parent stem : List Char,
      projectDirName parent stem =
        "project-".data ++ (hex_digest [utf8Bytes parent]).take 16 ++ "-".data ++ stem ∧
      ((hex_digest [utf8Bytes parent]).take 16).length = 16) ∧
    (∀ p q stem : List Char,
      projectDirName p stem = projectDirName q stem ↔
        (hex_digest [utf8Bytes p]).take 16 = (hex_digest [utf8Bytes q]).take 16) := by
  constructor
  · intro parent stem
    refine ⟨rfl, ?_⟩
    rw [List.length_take, hex_digest_eq_sha_flatten]
    simp only [List.flatten_cons, List.flatten_nil, List.append_nil]
    rw [hexEncode_length, sha256_length]
    norm_num
  · intro p q stem
    constructor
    · intro h
      unfold projectDirName at h
      have h1 := List.append_cancel_right h
      have h2 := List.append_cancel_right h1
      exact List.append_cancel_left h2
    · intro h
      unfold projectDirName
      rw [h]
